import Mathlib

/-!
Shallow embedding of the driveyard repository's two allocation primitives:

* `quickdry` — a bump-pointer arena allocator (`src/quickdry/src/lib.rs`),
* `soak` — a struct-of-arrays raw table (`src/soak/src/lib.rs`).

Machine `usize` values are modelled as `Nat` with explicit reductions
modulo `2 ^ 64` exactly where the Rust code can wrap; addresses are plain
natural numbers, the null pointer is the address `0`.  The system
allocator is modelled by passing the address it would return as an
explicit argument (`0` meaning allocation failure).
-/

set_option linter.unusedVariables false

namespace Driveyard

/-- The value `2 ^ 64`, one past the largest `usize` value. -/
def U64 : Nat := 2 ^ 64

/-- Wrapping of a `usize` computation (release-mode overflow semantics). -/
def wrap (n : Nat) : Nat := n % U64

/-- Bitwise complement on `usize` (`!n` in Rust), for `n < U64`. -/
def usizeNot (n : Nat) : Nat := U64 - 1 - n

/-- Wrapping `usize` subtraction `a - b` (for `a b < U64`). -/
def usizeSub (a b : Nat) : Nat := (U64 + a - b) % U64

/-- Checked addition, `usize::checked_add`. -/
def checked_add (a b : Nat) : Option Nat := if a + b < U64 then some (a + b) else none

/-- Checked multiplication, `usize::checked_mul`. -/
def checked_mul (a b : Nat) : Option Nat := if a * b < U64 then some (a * b) else none

/-! ### Byte ranges -/

/-- Predicate: `x` lies in the half-open byte range `[a, a + sa)`. -/
def InRange (x a sa : Nat) : Prop := a ≤ x ∧ x < a + sa

/-- The half-open byte ranges `[a, a + sa)` and `[b, b + sb)` are disjoint. -/
def RangesDisjoint (a sa b sb : Nat) : Prop := ∀ x, InRange x a sa → ¬ InRange x b sb

/-! ### quickdry: bump-pointer arena (`src/quickdry/src/lib.rs`) -/

namespace Quickdry

/-- Function `align_to(size, align)` from quickdry: `(size + align - 1) & !(align - 1)`
computed on `usize`. -/
def align_to (size align : Nat) : Nat := wrap (size + align - 1) &&& usizeNot (align - 1)

/-- Function `align_offset(size, align)` from quickdry: `align_to(size, align) - size`
(a wrapping `usize` subtraction). -/
def align_offset (size align : Nat) : Nat := usizeSub (align_to size align) size

/-- The `SLAB_SIZE` constant. -/
def SLAB_SIZE : Nat := 0x1000

/-- Arena state: owned slabs as `(base address, size)` pairs in push order,
plus the bump cursor `next` and the current slab end `end_`. -/
structure Arena where
  slabs : List (Nat × Nat)
  next : Nat
  end_ : Nat
deriving Repr, DecidableEq

/-- Constructor `Arena::default()`: no slabs, `next` and `end` both set to
`ptr::dangling_mut::<u8>()`, whose address is `1`. -/
def Arena.default : Arena := { slabs := [], next := 1, end_ := 1 }

/-- Method `Arena::alloc_slab(size)`.  `sys` is the address the system allocator
returns for this request (`0` = failure).  On success the slab is pushed on
the owned-slab list and its base address returned. -/
def Arena.alloc_slab (st : Arena) (size sys : Nat) : Nat × Arena :=
  if sys = 0 then (0, st)
  else (sys, { st with slabs := st.slabs ++ [(sys, size)] })

/-- Method `Arena::alloc_new_slab(layout)` with `layout = (size, align)`. -/
def Arena.alloc_new_slab (st : Arena) (size align sys : Nat) : Nat × Arena :=
  let padded := size + align - 1
  if SLAB_SIZE < padded then
    let r := st.alloc_slab padded sys
    if r.1 = 0 then (0, r.2)
    else (r.1 + align_offset r.1 align, r.2)
  else
    let slabSize := SLAB_SIZE * (1 <<< min 30 (st.slabs.length / 128))
    let r := st.alloc_slab slabSize sys
    if r.1 = 0 then (0, r.2)
    else
      let p := r.1 + align_offset r.1 align
      (p, { r.2 with next := p + size, end_ := r.1 + slabSize })

/-- Method `Arena::alloc(layout)` with `layout = (size, align)`. -/
def Arena.alloc (st : Arena) (size align sys : Nat) : Nat × Arena :=
  let offset := align_offset st.next align
  if offset + size ≤ usizeSub st.end_ st.next then
    (st.next + offset, { st with next := st.next + offset + size })
  else
    st.alloc_new_slab size align sys

/-! ### Arena allocation traces -/

/-- A valid `Layout`: the alignment is a power of two (at most `2 ^ 63`) and
the padded size fits in `isize` (guaranteed by `core::alloc::Layout`). -/
def ValidLayout (size align : Nat) : Prop :=
  (∃ k, k ≤ 63 ∧ align = 2 ^ k) ∧ size + align ≤ 2 ^ 63

/-- The slab size `alloc` would request from the system allocator should it
need a new slab for the request `(size, align)`. -/
def sysReq (st : Arena) (size align : Nat) : Nat :=
  if SLAB_SIZE < size + align - 1 then size + align - 1
  else SLAB_SIZE * (1 <<< min 30 (st.slabs.length / 128))

/-- A well-behaved system allocator response: either failure (`0`), or a
nonzero buffer below the addressable limit and disjoint from every slab the
arena already owns. -/
def SysOk (st : Arena) (req sys : Nat) : Prop :=
  sys = 0 ∨
    (1 ≤ sys ∧ sys + req ≤ 2 ^ 63 ∧ ∀ p ∈ st.slabs, sys + req ≤ p.1 ∨ p.1 + p.2 ≤ sys)

/-- A trace of `alloc` requests `((size, align), sys)` is good when every
layout is valid and every system-allocator response is well behaved for the
arena state at that point. -/
def GoodTrace : Arena → List ((Nat × Nat) × Nat) → Prop
  | _, [] => True
  | st, ((size, align), sys) :: rest =>
      ValidLayout size align ∧ SysOk st (sysReq st size align) sys ∧
        GoodTrace (st.alloc size align sys).2 rest

/-- Run a list of `alloc` requests, collecting `(address, size, align)` for
each call in order. -/
def runAlloc : Arena → List ((Nat × Nat) × Nat) → List (Nat × Nat × Nat) × Arena
  | st, [] => ([], st)
  | st, ((size, align), sys) :: rest =>
      let r := st.alloc size align sys
      let rest' := runAlloc r.2 rest
      ((r.1, size, align) :: rest'.1, rest'.2)

/-- A concrete allocation trace: 128 oversized one-off allocations, then a
one-byte allocation that opens a doubled (8192-byte) slab. -/
def c8Trace : List ((Nat × Nat) × Nat) :=
  (List.range 128).map (fun i => ((5000, 1), 10000 + 5000 * i)) ++ [((1, 1), 1000000)]

/-- The arena state reached by running `c8Trace` from a fresh arena. -/
def c8State : Arena := (runAlloc Arena.default c8Trace).2

/-- Invariant tying an arena state to the list of results returned so far. -/
structure ArenaInv (st : Arena) (rs : List (Nat × Nat × Nat)) : Prop where
  aligned : ∀ r ∈ rs, r.1 ≠ 0 → r.1 % r.2.2 = 0
  pairwise : rs.Pairwise fun r1 r2 =>
    r1.1 ≠ 0 → r2.1 ≠ 0 → RangesDisjoint r1.1 r1.2.1 r2.1 r2.2.1
  inSlab : ∀ r ∈ rs, r.1 ≠ 0 → 0 < r.2.1 →
    ∃ p ∈ st.slabs, p.1 ≤ r.1 ∧ r.1 + r.2.1 ≤ p.1 + p.2
  windowDisj : ∀ r ∈ rs, r.1 ≠ 0 →
    RangesDisjoint r.1 r.2.1 st.next (st.end_ - st.next)
  nextLe : st.next ≤ st.end_
  nextPos : 1 ≤ st.next
  windowSlab : st.next = st.end_ ∨
    ∃ p ∈ st.slabs, p.1 ≤ st.next ∧ st.end_ ≤ p.1 + p.2
  endHi : st.end_ ≤ 2 ^ 63
  slabsOk : ∀ p ∈ st.slabs, 1 ≤ p.1 ∧ p.1 + p.2 ≤ 2 ^ 63

end Quickdry

/-! ### soak: struct-of-arrays raw table (`src/soak/src/lib.rs`) -/

namespace Soak

/-- A record type's schema: one `(size, align)` pair per field, in
declaration order (`Columns::SIZES` / `Columns::ALIGNS`). -/
abbrev Schema := List (Nat × Nat)

/-- Maximal field alignment, `T::ALIGNS.iter().cloned().max().unwrap_or(1)`. -/
def maxAlign (s : Schema) : Nat := ((s.map fun f => f.2).max?).getD 1

/-- A schema is valid when every field alignment is a power of two at most
`2 ^ 63` (guaranteed for Rust types). -/
def ValidSchema (s : Schema) : Prop := ∀ f ∈ s, ∃ k, k ≤ 63 ∧ f.2 = 2 ^ k

/-- Check `mem::size_of::<T>() == 0`: a record type is zero-sized exactly when
every field is. -/
def isZST (s : Schema) : Bool := s.all fun f => f.1 == 0

/-- The value `usize::MAX`. -/
def usizeMAX : Nat := U64 - 1

/-- The overflow-checked total-byte-size fold of `RawTable::with_capacity`
(`T::SIZES.iter().try_fold(0, ...)`). -/
def byteSizeAux (mask capacity : Nat) : Nat → Schema → Option Nat
  | sum, [] => some sum
  | sum, f :: rest =>
      match checked_mul capacity f.1 with
      | none => none
      | some arraySize =>
          match checked_add arraySize mask with
          | none => none
          | some padded =>
              match checked_add sum (padded &&& usizeNot mask) with
              | none => none
              | some sum' => byteSizeAux mask capacity sum' rest

def byteSize (s : Schema) (capacity : Nat) : Option Nat :=
  byteSizeAux (maxAlign s - 1) capacity 0 s

/-- The field base pointers: walk the fields in order, advancing a running
offset by each field's rounded span
(`offset += (capacity * size + mask) & !mask`). -/
def mkPointers : Schema → Nat → Nat → Nat → List Nat
  | [], _, _, _ => []
  | f :: rest, addr, capacity, mask =>
      addr :: mkPointers rest (addr + (wrap (capacity * f.1 + mask) &&& usizeNot mask))
        capacity mask

/-- A `RawTable`: the field base pointers, the capacity, and the contents
of its backing allocation (`none` = uninitialized byte). -/
structure RawTable where
  pointers : List Nat
  capacity : Nat
  mem : Nat → Option Nat

/-- Outcome of an allocating table operation: success, the
`"capacity overflow"` panic, or the abort from `handle_alloc_error`. -/
inductive AllocResult (α : Type) where
  | ok (value : α)
  | capacityOverflow
  | oomAbort

def AllocResult.isOk {α : Type} : AllocResult α → Bool
  | .ok _ => true
  | _ => false

/-- The table produced by a successful operation (junk table otherwise). -/
def resultTable : AllocResult RawTable → RawTable
  | .ok t => t
  | _ => { pointers := [], capacity := 0, mem := fun _ => none }

/-- Constructor `RawTable::default()`: per-field dangling pointers (each the field's
own alignment, per the `Columns` derive), capacity `usize::MAX` for
zero-sized record types, else `0`; no allocation. -/
def RawTable.default (s : Schema) : RawTable :=
  { pointers := s.map fun f => f.2
    capacity := if isZST s then usizeMAX else 0
    mem := fun _ => none }

/-- Constructor `RawTable::with_capacity(capacity)`.  `base` is the address the system
allocator returns for the single backing buffer (`0` = failure); for a
zero-byte layout the allocator is not consulted and the code uses `align`
as the buffer address. -/
def RawTable.with_capacity (s : Schema) (capacity base : Nat) : AllocResult RawTable :=
  let align := maxAlign s
  let mask := align - 1
  match byteSize s capacity with
  | none => .capacityOverflow
  | some size =>
      let data := if size = 0 then align else base
      if data = 0 then .oomAbort
      else
        .ok { pointers := mkPointers s data capacity mask
              capacity := if isZST s then usizeMAX else capacity
              mem := fun _ => none }

/-- Method `RawTable::ptr(field)`: index into the pointer array. -/
def RawTable.ptr (t : RawTable) (i : Nat) : Nat := t.pointers.getD i 0

/-- Operation `ptr::copy_nonoverlapping(src, dst, n)`, reading bytes of `msrc` and
writing into `mdst`. -/
def copyN (msrc : Nat → Option Nat) (src dst n : Nat) (mdst : Nat → Option Nat) :
    Nat → Option Nat :=
  fun a => if dst ≤ a ∧ a < dst + n then msrc (src + (a - dst)) else mdst a

/-- The copy loop of `reserve_exact`: for each field, in schema order, copy
`count * size` bytes from the old buffer into the new one. -/
def copyFields (msrc : Nat → Option Nat) (count : Nat) :
    List Nat → List Nat → Schema → (Nat → Option Nat) → Nat → Option Nat
  | sp :: sps, dp :: dps, f :: fs, m =>
      copyFields msrc count sps dps fs (copyN msrc sp dp (count * f.1) m)
  | _, _, _, m => m

/-- Method `RawTable::reserve_exact(used, extra)`.  `base` is the system
allocator's response for the new buffer.  The `ok` value is the table
`self` holds after the call. -/
def RawTable.reserve_exact (t : RawTable) (s : Schema) (used extra base : Nat) :
    AllocResult RawTable :=
  if extra ≤ usizeSub t.capacity used then .ok t
  else
    match checked_add used extra with
    | none => .capacityOverflow
    | some capacity =>
        match RawTable.with_capacity s capacity base with
        | .ok table =>
            .ok { table with
                  mem := copyFields t.mem t.capacity t.pointers table.pointers s table.mem }
        | .capacityOverflow => .capacityOverflow
        | .oomAbort => .oomAbort

/-- The table held after a `reserve_exact` call: unchanged when the call
fails (the panic unwinds before `self` is replaced). -/
def RawTable.afterReserve (t : RawTable) (s : Schema) (used extra base : Nat) : RawTable :=
  match t.reserve_exact s used extra base with
  | .ok t' => t'
  | _ => t

/-- The old table of the C2 scenario: one u8 field, capacity 2, with the
byte of element 1 set to 7. -/
def c2Old : RawTable :=
  { pointers := [4096], capacity := 2
    mem := fun a => if a = 4097 then some 7 else none }

/-- The table produced by `reserve_exact(1, 2)` on `c2Old` with the new
buffer at 8192. -/
def c2New : RawTable :=
  { pointers := [8192], capacity := 3
    mem := copyFields c2Old.mem 2 [4096] [8192] [(1, 1)] fun _ => none }

/-- The `{u8, u32, u64}` schema of the soak layout test
(sizes `{1, 4, 8}`, alignments `{1, 4, 8}`). -/
def s9 : Schema := [(1, 1), (4, 4), (8, 8)]

end Soak

/-! ### Theorems -/

theorem U64_pos : 0 < U64 := by decide

theorem usizeSub_of_le {a b : Nat} (hb : b ≤ a) (ha : a < U64) : usizeSub a b = a - b := by
  unfold usizeSub
  have h : U64 + a - b = U64 + (a - b) := by omega
  rw [h, Nat.add_mod_left]
  exact Nat.mod_eq_of_lt (by omega)

/-- Clearing the low `k` bits of `y < 2 ^ w` with the mask `2 ^ w - 2 ^ k`
rounds `y` down to a multiple of `2 ^ k`. -/
theorem and_high_mask {y k w : Nat} (hy : y < 2 ^ w) (hk : k ≤ w) :
    y &&& (2 ^ w - 2 ^ k) = 2 ^ k * (y / 2 ^ k) := by
  have h1 : 2 ^ w - 2 ^ k = (2 ^ (w - k) - 1) <<< k := by
    rw [Nat.shiftLeft_eq, Nat.sub_mul, one_mul, ← pow_add, Nat.sub_add_cancel hk]
  have h2 : 2 ^ k * (y / 2 ^ k) = (y >>> k) <<< k := by
    rw [Nat.shiftRight_eq_div_pow, Nat.shiftLeft_eq, Nat.mul_comm]
  rw [h1, h2]
  apply Nat.eq_of_testBit_eq
  intro i
  rw [Nat.testBit_and, Nat.testBit_shiftLeft, Nat.testBit_shiftLeft, Nat.testBit_shiftRight,
    Nat.testBit_two_pow_sub_one]
  by_cases hik : k ≤ i
  · have hik' : i ≥ k := hik
    simp only [hik', decide_True, Bool.true_and]
    rw [Nat.add_sub_cancel' hik]
    by_cases hiw : i < w
    · have h3 : i - k < w - k := by omega
      simp [h3]
    · have h3 : ¬ (i - k < w - k) := by omega
      have hyi : y.testBit i = false := by
        apply Nat.testBit_lt_two_pow
        exact lt_of_lt_of_le hy (Nat.pow_le_pow_right (by norm_num) (by omega))
      simp [h3, hyi]
  · have hik' : ¬ (i ≥ k) := hik
    simp [hik']

/-! ### Properties of `align_to` for power-of-two alignments -/

theorem align_to_pow (x k : Nat) (hk : k ≤ 63) (hx : x + 2 ^ k ≤ U64) :
    Quickdry.align_to x (2 ^ k) = 2 ^ k * ((x + 2 ^ k - 1) / 2 ^ k) := by
  have hpos : 0 < 2 ^ k := Nat.pos_pow_of_pos _ (by norm_num)
  unfold Quickdry.align_to wrap usizeNot
  have h1 : x + 2 ^ k - 1 < U64 := by omega
  rw [Nat.mod_eq_of_lt h1]
  have hk64 : 2 ^ k ≤ 2 ^ 64 := Nat.pow_le_pow_right (by norm_num) (by omega)
  have h2 : U64 - 1 - (2 ^ k - 1) = 2 ^ 64 - 2 ^ k := by
    unfold U64; omega
  rw [h2]
  exact and_high_mask h1 (by omega)

theorem align_to_bounds (x k : Nat) (hk : k ≤ 63) (hx : x + 2 ^ k ≤ U64) :
    x ≤ Quickdry.align_to x (2 ^ k) ∧ Quickdry.align_to x (2 ^ k) < x + 2 ^ k ∧
      Quickdry.align_to x (2 ^ k) % 2 ^ k = 0 := by
  rw [align_to_pow x k hk hx]
  have hpos : 0 < 2 ^ k := Nat.pos_pow_of_pos _ (by norm_num)
  have hdm := Nat.div_add_mod (x + 2 ^ k - 1) (2 ^ k)
  have hr := Nat.mod_lt (x + 2 ^ k - 1) hpos
  refine ⟨?_, ?_, Nat.mul_mod_right _ _⟩
  · omega
  · omega

/-- For a power-of-two alignment and non-wrapping addresses, `align_offset`
is an honest subtraction and the aligned address has the expected bounds. -/
theorem align_offset_spec (x k : Nat) (hk : k ≤ 63) (hx : x + 2 ^ k ≤ U64) :
    x + Quickdry.align_offset x (2 ^ k) = Quickdry.align_to x (2 ^ k) ∧
      Quickdry.align_offset x (2 ^ k) < 2 ^ k := by
  obtain ⟨h1, h2, h3⟩ := align_to_bounds x k hk hx
  unfold Quickdry.align_offset
  rw [usizeSub_of_le h1 (by unfold U64 at *; omega)]
  omega

theorem rdisj_of_separated {a sa b sb : Nat} (h : a + sa ≤ b ∨ b + sb ≤ a) :
    RangesDisjoint a sa b sb := by
  intro x hx hy
  unfold InRange at hx hy
  omega

theorem rdisj_symm {a sa b sb : Nat} (h : RangesDisjoint a sa b sb) :
    RangesDisjoint b sb a sa :=
  fun x hb ha => h x ha hb

theorem rdisj_mono {a sa b sb a' sa' b' sb' : Nat} (h : RangesDisjoint a sa b sb)
    (h1 : ∀ x, InRange x a' sa' → InRange x a sa)
    (h2 : ∀ x, InRange x b' sb' → InRange x b sb) :
    RangesDisjoint a' sa' b' sb' :=
  fun x hx hy => h x (h1 x hx) (h2 x hy)

theorem inRange_sub {a sa a' sa' : Nat} (h1 : a ≤ a') (h2 : a' + sa' ≤ a + sa) :
    ∀ x, InRange x a' sa' → InRange x a sa := by
  intro x hx
  unfold InRange at hx ⊢
  omega

theorem rdisj_empty_left {a b sb : Nat} : RangesDisjoint a 0 b sb := by
  intro x hx
  unfold InRange at hx
  omega

theorem rdisj_empty_right {a sa b : Nat} : RangesDisjoint a sa b 0 := by
  intro x _ hy
  unfold InRange at hy
  omega

namespace Quickdry

theorem ArenaInv.init : ArenaInv Arena.default [] := by
  refine ⟨?_, ?_, ?_, ?_, ?_, ?_, ?_, ?_, ?_⟩ <;>
    simp [Arena.default]

/-! Branch equations for `Arena.alloc`. -/

theorem alloc_fast {st : Arena} {size align sys : Nat}
    (h : align_offset st.next align + size ≤ usizeSub st.end_ st.next) :
    st.alloc size align sys =
      (st.next + align_offset st.next align,
       { st with next := st.next + align_offset st.next align + size }) := by
  unfold Arena.alloc
  rw [if_pos h]

theorem alloc_slow {st : Arena} {size align sys : Nat}
    (h : ¬ align_offset st.next align + size ≤ usizeSub st.end_ st.next) :
    st.alloc size align sys = st.alloc_new_slab size align sys := by
  unfold Arena.alloc
  rw [if_neg h]

theorem alloc_new_slab_fail {st : Arena} {size align : Nat} :
    st.alloc_new_slab size align 0 = (0, st) := by
  unfold Arena.alloc_new_slab Arena.alloc_slab
  simp

theorem alloc_new_slab_big {st : Arena} {size align sys : Nat}
    (hp : SLAB_SIZE < size + align - 1) (hs : sys ≠ 0) :
    st.alloc_new_slab size align sys =
      (sys + align_offset sys align,
       { st with slabs := st.slabs ++ [(sys, size + align - 1)] }) := by
  unfold Arena.alloc_new_slab Arena.alloc_slab
  rw [if_pos hp]
  simp [hs]

theorem alloc_new_slab_std {st : Arena} {size align sys : Nat}
    (hp : ¬ SLAB_SIZE < size + align - 1) (hs : sys ≠ 0) :
    st.alloc_new_slab size align sys =
      (sys + align_offset sys align,
       { slabs := st.slabs ++ [(sys, SLAB_SIZE * (1 <<< min 30 (st.slabs.length / 128)))],
         next := sys + align_offset sys align + size,
         end_ := sys + SLAB_SIZE * (1 <<< min 30 (st.slabs.length / 128)) }) := by
  unfold Arena.alloc_new_slab Arena.alloc_slab
  rw [if_neg hp]
  simp [hs]

theorem ArenaInv.step {st : Arena} {rs : List (Nat × Nat × Nat)} (h : ArenaInv st rs)
    {size align sys : Nat} (hl : ValidLayout size align)
    (hs : SysOk st (sysReq st size align) sys) :
    ArenaInv (st.alloc size align sys).2
      (rs ++ [((st.alloc size align sys).1, size, align)]) := by
  obtain ⟨⟨k, hk, halign⟩, hsz⟩ := hl
  subst halign
  have hU : U64 = 2 ^ 63 + 2 ^ 63 := by norm_num [U64]
  have hkle : (2 : Nat) ^ k ≤ 2 ^ 63 := Nat.pow_le_pow_right (by norm_num) hk
  have hkpos : 0 < (2 : Nat) ^ k := Nat.pos_pow_of_pos _ (by norm_num)
  by_cases hfast : align_offset st.next (2 ^ k) + size ≤ usizeSub st.end_ st.next
  · -- fast path: the request fits in the current slab
    have hnextU : st.next + 2 ^ k ≤ U64 := by
      have h1 := h.nextLe; have h2 := h.endHi; omega
    obtain ⟨hAeq, hofs⟩ := align_offset_spec st.next k hk hnextU
    obtain ⟨hA1, hA2, hA3⟩ := align_to_bounds st.next k hk hnextU
    rw [usizeSub_of_le h.nextLe (by have := h.endHi; omega)] at hfast
    rw [alloc_fast (by rw [usizeSub_of_le h.nextLe (by have := h.endHi; omega)]; exact hfast)]
    have hfit : st.next + align_offset st.next (2 ^ k) + size ≤ st.end_ := by
      have := h.nextLe; omega
    refine ⟨?_, ?_, ?_, ?_, ?_, ?_, ?_, ?_, ?_⟩ <;> dsimp only
    · intro r hr hr0
      rcases List.mem_append.1 hr with h1 | h2
      · exact h.aligned r h1 hr0
      · rw [List.mem_singleton] at h2
        subst h2
        show (st.next + align_offset st.next (2 ^ k)) % 2 ^ k = 0
        rw [hAeq]; exact hA3
    · rw [List.pairwise_append]
      refine ⟨h.pairwise, by simp, ?_⟩
      intro a ha b hb ha0 hb0
      rw [List.mem_singleton] at hb
      subst hb
      dsimp only at hb0 ⊢
      have hw := h.windowDisj a ha (by exact ha0)
      exact rdisj_mono hw (fun x hx => hx)
        (inRange_sub (by omega) (by have := h.nextLe; omega))
    · intro r hr hr0 hrpos
      rcases List.mem_append.1 hr with h1 | h2
      · exact h.inSlab r h1 hr0 hrpos
      · rw [List.mem_singleton] at h2
        subst h2
        dsimp only at hrpos ⊢
        rcases h.windowSlab with hw | ⟨p, hp, hp1, hp2⟩
        · omega
        · exact ⟨p, hp, by omega, by omega⟩
    · intro r hr hr0
      rcases List.mem_append.1 hr with h1 | h2
      · have hw := h.windowDisj r h1 hr0
        exact rdisj_mono hw (fun x hx => hx)
          (inRange_sub (by omega) (by have := h.nextLe; omega))
      · rw [List.mem_singleton] at h2
        subst h2
        dsimp only
        exact rdisj_of_separated (Or.inl (by omega))
    · omega
    · have := h.nextPos; omega
    · rcases h.windowSlab with hw | ⟨p, hp, hp1, hp2⟩
      · left; omega
      · right; exact ⟨p, hp, by omega, by omega⟩
    · exact h.endHi
    · exact h.slabsOk
  · -- slow path: a new slab is needed
    rw [alloc_slow hfast]
    by_cases hsys : sys = 0
    · subst hsys
      rw [alloc_new_slab_fail]
      refine ⟨?_, ?_, ?_, ?_, ?_, ?_, ?_, ?_, ?_⟩ <;> dsimp only
      · intro r hr hr0
        rcases List.mem_append.1 hr with h1 | h2
        · exact h.aligned r h1 hr0
        · rw [List.mem_singleton] at h2; subst h2; exact absurd rfl hr0
      · rw [List.pairwise_append]
        refine ⟨h.pairwise, by simp, ?_⟩
        intro a ha b hb ha0 hb0
        rw [List.mem_singleton] at hb; subst hb; exact absurd rfl hb0
      · intro r hr hr0 hrpos
        rcases List.mem_append.1 hr with h1 | h2
        · exact h.inSlab r h1 hr0 hrpos
        · rw [List.mem_singleton] at h2; subst h2; exact absurd rfl hr0
      · intro r hr hr0
        rcases List.mem_append.1 hr with h1 | h2
        · exact h.windowDisj r h1 hr0
        · rw [List.mem_singleton] at h2; subst h2; exact absurd rfl hr0
      · exact h.nextLe
      · exact h.nextPos
      · exact h.windowSlab
      · exact h.endHi
      · exact h.slabsOk
    · rcases hs with h0 | ⟨hs1, hs2, hs3⟩
      · exact absurd h0 hsys
      by_cases hbig : SLAB_SIZE < size + 2 ^ k - 1
      · -- oversized one-off slab
        rw [alloc_new_slab_big hbig hsys]
        rw [sysReq, if_pos hbig] at hs2 hs3
        have hsysU : sys + 2 ^ k ≤ U64 := by omega
        obtain ⟨hAeq, hofs⟩ := align_offset_spec sys k hk hsysU
        obtain ⟨hA1, hA2, hA3⟩ := align_to_bounds sys k hk hsysU
        refine ⟨?_, ?_, ?_, ?_, ?_, ?_, ?_, ?_, ?_⟩ <;> dsimp only
        · intro r hr hr0
          rcases List.mem_append.1 hr with h1 | h2
          · exact h.aligned r h1 hr0
          · rw [List.mem_singleton] at h2
            subst h2
            show (sys + align_offset sys (2 ^ k)) % 2 ^ k = 0
            rw [hAeq]; exact hA3
        · rw [List.pairwise_append]
          refine ⟨h.pairwise, by simp, ?_⟩
          intro a ha b hb ha0 hb0
          rw [List.mem_singleton] at hb
          subst hb
          dsimp only at hb0 ⊢
          by_cases haz : a.2.1 = 0
          · rw [haz]; exact rdisj_empty_left
          · obtain ⟨p, hp, hp1, hp2⟩ := h.inSlab a ha ha0 (by omega)
            have hsep : RangesDisjoint p.1 p.2 sys (size + 2 ^ k - 1) := by
              rcases hs3 p hp with hc | hc
              · exact rdisj_of_separated (Or.inr hc)
              · exact rdisj_of_separated (Or.inl hc)
            exact rdisj_mono hsep (inRange_sub hp1 hp2)
              (inRange_sub (by omega) (by omega))
        · intro r hr hr0 hrpos
          rcases List.mem_append.1 hr with h1 | h2
          · obtain ⟨p, hp, hp1, hp2⟩ := h.inSlab r h1 hr0 hrpos
            exact ⟨p, List.mem_append_left _ hp, hp1, hp2⟩
          · rw [List.mem_singleton] at h2
            subst h2
            refine ⟨(sys, size + 2 ^ k - 1), List.mem_append_right _ (by simp), ?_, ?_⟩ <;>
              dsimp only <;> omega
        · intro r hr hr0
          rcases List.mem_append.1 hr with h1 | h2
          · exact h.windowDisj r h1 hr0
          · rw [List.mem_singleton] at h2
            subst h2
            dsimp only
            rcases h.windowSlab with hw | ⟨p, hp, hp1, hp2⟩
            · have : st.end_ - st.next = 0 := by omega
              rw [this]; exact rdisj_empty_right
            · have hsep : RangesDisjoint sys (size + 2 ^ k - 1) p.1 p.2 := by
                rcases hs3 p hp with hc | hc
                · exact rdisj_of_separated (Or.inl hc)
                · exact rdisj_of_separated (Or.inr hc)
              exact rdisj_mono hsep (inRange_sub (by omega) (by omega))
                (inRange_sub (by omega) (by have := h.nextLe; omega))
        · exact h.nextLe
        · exact h.nextPos
        · rcases h.windowSlab with hw | ⟨p, hp, hp1, hp2⟩
          · left; exact hw
          · right; exact ⟨p, List.mem_append_left _ hp, hp1, hp2⟩
        · exact h.endHi
        · intro p hp
          rcases List.mem_append.1 hp with h1 | h2
          · exact h.slabsOk p h1
          · rw [List.mem_singleton] at h2
            subst h2
            exact ⟨hs1, hs2⟩
      · -- standard new slab
        rw [alloc_new_slab_std hbig hsys]
        rw [sysReq, if_neg hbig] at hs2 hs3
        have hslab1 : SLAB_SIZE ≤ SLAB_SIZE * (1 <<< min 30 (st.slabs.length / 128)) := by
          have h1 : 1 ≤ 1 <<< min 30 (st.slabs.length / 128) := by
            rw [Nat.shiftLeft_eq, one_mul]
            exact Nat.pos_pow_of_pos _ (by norm_num)
          exact Nat.le_mul_of_pos_right _ h1
        set S := SLAB_SIZE * (1 <<< min 30 (st.slabs.length / 128)) with hS
        have hSLAB : SLAB_SIZE = 4096 := by norm_num [SLAB_SIZE]
        rw [SLAB_SIZE] at hbig
        have hsysU : sys + 2 ^ k ≤ U64 := by omega
        obtain ⟨hAeq, hofs⟩ := align_offset_spec sys k hk hsysU
        obtain ⟨hA1, hA2, hA3⟩ := align_to_bounds sys k hk hsysU
        have hfit : sys + align_offset sys (2 ^ k) + size ≤ sys + S := by omega
        refine ⟨?_, ?_, ?_, ?_, ?_, ?_, ?_, ?_, ?_⟩ <;> dsimp only
        · intro r hr hr0
          rcases List.mem_append.1 hr with h1 | h2
          · exact h.aligned r h1 hr0
          · rw [List.mem_singleton] at h2
            subst h2
            show (sys + align_offset sys (2 ^ k)) % 2 ^ k = 0
            rw [hAeq]; exact hA3
        · rw [List.pairwise_append]
          refine ⟨h.pairwise, by simp, ?_⟩
          intro a ha b hb ha0 hb0
          rw [List.mem_singleton] at hb
          subst hb
          dsimp only at hb0 ⊢
          by_cases haz : a.2.1 = 0
          · rw [haz]; exact rdisj_empty_left
          · obtain ⟨p, hp, hp1, hp2⟩ := h.inSlab a ha ha0 (by omega)
            have hsep : RangesDisjoint p.1 p.2 sys S := by
              rcases hs3 p hp with hc | hc
              · exact rdisj_of_separated (Or.inr hc)
              · exact rdisj_of_separated (Or.inl hc)
            exact rdisj_mono hsep (inRange_sub hp1 hp2)
              (inRange_sub (by omega) (by omega))
        · intro r hr hr0 hrpos
          rcases List.mem_append.1 hr with h1 | h2
          · obtain ⟨p, hp, hp1, hp2⟩ := h.inSlab r h1 hr0 hrpos
            exact ⟨p, List.mem_append_left _ hp, hp1, hp2⟩
          · rw [List.mem_singleton] at h2
            subst h2
            refine ⟨(sys, S), List.mem_append_right _ (by simp), ?_, ?_⟩ <;>
              dsimp only <;> omega
        · intro r hr hr0
          rcases List.mem_append.1 hr with h1 | h2
          · by_cases haz : r.2.1 = 0
            · rw [haz]; exact rdisj_empty_left
            · obtain ⟨p, hp, hp1, hp2⟩ := h.inSlab r h1 hr0 (by omega)
              have hsep : RangesDisjoint p.1 p.2 sys S := by
                rcases hs3 p hp with hc | hc
                · exact rdisj_of_separated (Or.inr hc)
                · exact rdisj_of_separated (Or.inl hc)
              exact rdisj_mono hsep (inRange_sub hp1 hp2)
                (inRange_sub (by omega) (by omega))
          · rw [List.mem_singleton] at h2
            subst h2
            dsimp only
            exact rdisj_of_separated (Or.inl (by omega))
        · omega
        · omega
        · right
          refine ⟨(sys, S), List.mem_append_right _ (by simp), ?_, ?_⟩ <;>
            dsimp only <;> omega
        · omega
        · intro p hp
          rcases List.mem_append.1 hp with h1 | h2
          · exact h.slabsOk p h1
          · rw [List.mem_singleton] at h2
            subst h2
            exact ⟨hs1, hs2⟩

theorem runAlloc_inv :
    ∀ (tr : List ((Nat × Nat) × Nat)) (st : Arena) (rs : List (Nat × Nat × Nat)),
      ArenaInv st rs → GoodTrace st tr →
      ArenaInv (runAlloc st tr).2 (rs ++ (runAlloc st tr).1)
  | [], st, rs, h, _ => by simpa [runAlloc] using h
  | ((size, align), sys) :: rest, st, rs, h, ht => by
      obtain ⟨hl, hsys, hrest⟩ := ht
      have ih := runAlloc_inv rest (st.alloc size align sys).2
        (rs ++ [((st.alloc size align sys).1, size, align)]) (h.step hl hsys) hrest
      simpa [runAlloc, List.append_assoc] using ih

end Quickdry

namespace Soak

/-! ### Support lemmas for the table -/

theorem checked_add_some {a b c : Nat} (h : checked_add a b = some c) :
    c = a + b ∧ a + b < U64 := by
  unfold checked_add at h
  split at h
  · cases h; exact ⟨rfl, by assumption⟩
  · cases h

theorem checked_mul_some {a b c : Nat} (h : checked_mul a b = some c) :
    c = a * b ∧ a * b < U64 := by
  unfold checked_mul at h
  split at h
  · cases h; exact ⟨rfl, by assumption⟩
  · cases h

theorem checked_add_none {a b : Nat} (h : checked_add a b = none) : U64 ≤ a + b := by
  unfold checked_add at h
  split at h
  · cases h
  · omega

theorem foldl_max_init_le : ∀ (l : List Nat) (a : Nat), a ≤ l.foldl max a
  | [], _ => Nat.le_refl _
  | b :: t, a => Nat.le_trans (Nat.le_max_left a b) (foldl_max_init_le t (max a b))

theorem foldl_max_mem_le : ∀ (l : List Nat) (a x : Nat), x ∈ l → x ≤ l.foldl max a
  | b :: t, a, x, hx => by
    rcases List.mem_cons.1 hx with h | h
    · subst h
      exact Nat.le_trans (Nat.le_max_right a x) (foldl_max_init_le t (max a x))
    · exact foldl_max_mem_le t (max a b) x h

theorem foldl_max_eq : ∀ (l : List Nat) (a : Nat), l.foldl max a = a ∨ l.foldl max a ∈ l
  | [], a => Or.inl rfl
  | b :: t, a => by
    rcases foldl_max_eq t (max a b) with h | h
    · rcases max_choice a b with hm | hm
      · left; rw [List.foldl_cons, h, hm]
      · right; rw [List.foldl_cons, h, hm]; exact List.mem_cons_self _ _
    · right; exact List.mem_cons_of_mem _ h

theorem le_maxAlign {s : Schema} {f : Nat × Nat} (hf : f ∈ s) : f.2 ≤ maxAlign s := by
  unfold maxAlign
  cases s with
  | nil => cases hf
  | cons g t =>
    have hmem : f.2 ∈ (g :: t).map fun f => f.2 := List.mem_map_of_mem _ hf
    show f.2 ≤ (((g :: t).map fun f => f.2).max?).getD 1
    rw [show ((g :: t).map fun f => f.2).max? =
      some ((t.map fun f => f.2).foldl max g.2) from rfl]
    rw [Option.getD_some]
    rcases List.mem_cons.1 hmem with h | h
    · rw [h]; exact foldl_max_init_le _ _
    · exact foldl_max_mem_le _ _ _ h

theorem maxAlign_pow {s : Schema} (hva : ValidSchema s) :
    ∃ K, K ≤ 63 ∧ maxAlign s = 2 ^ K := by
  unfold maxAlign
  cases s with
  | nil => exact ⟨0, by norm_num, rfl⟩
  | cons g t =>
    show ∃ K, K ≤ 63 ∧ (((g :: t).map fun f => f.2).max?).getD 1 = 2 ^ K
    rw [show ((g :: t).map fun f => f.2).max? =
      some ((t.map fun f => f.2).foldl max g.2) from rfl]
    rw [Option.getD_some]
    rcases foldl_max_eq (t.map fun f => f.2) g.2 with h | h
    · rw [h]
      obtain ⟨k, hk, hg⟩ := hva g (List.mem_cons_self _ _)
      exact ⟨k, hk, hg⟩
    · obtain ⟨f, hf, hf2⟩ := List.mem_map.1 h
      obtain ⟨k, hk, hg⟩ := hva f (List.mem_cons_of_mem _ hf)
      rw [← hf2]
      exact ⟨k, hk, hg⟩

theorem maxAlign_pos {s : Schema} (hva : ValidSchema s) : 1 ≤ maxAlign s := by
  obtain ⟨K, _, h⟩ := maxAlign_pow hva
  rw [h]
  exact Nat.pos_pow_of_pos _ (by norm_num)

/-- The per-field rounded span of the table layout is exactly quickdry's
`align_to` of the array byte size. -/
theorem span_eq_align_to (y K : Nat) :
    wrap (y + (2 ^ K - 1)) &&& usizeNot (2 ^ K - 1) = Quickdry.align_to y (2 ^ K) := by
  unfold Quickdry.align_to
  have hpos : 0 < (2 : Nat) ^ K := Nat.pos_pow_of_pos _ (by norm_num)
  have h : y + (2 ^ K - 1) = y + 2 ^ K - 1 := by omega
  rw [h]

theorem span_bounds (y K : Nat) (hK : K ≤ 63) (hy : y + 2 ^ K ≤ U64) :
    y ≤ wrap (y + (2 ^ K - 1)) &&& usizeNot (2 ^ K - 1) ∧
      wrap (y + (2 ^ K - 1)) &&& usizeNot (2 ^ K - 1) < y + 2 ^ K ∧
      (wrap (y + (2 ^ K - 1)) &&& usizeNot (2 ^ K - 1)) % 2 ^ K = 0 := by
  rw [span_eq_align_to]
  exact align_to_bounds y K hK hy

theorem mask_and_usizeNot (K : Nat) (hK : K ≤ 63) :
    (2 ^ K - 1) &&& usizeNot (2 ^ K - 1) = 0 := by
  have hpos : 0 < (2 : Nat) ^ K := Nat.pos_pow_of_pos _ (by norm_num)
  have h := span_bounds 0 K hK
    (by have : (2 : Nat) ^ K ≤ 2 ^ 63 := Nat.pow_le_pow_right (by norm_num) hK
        unfold U64; omega)
  rw [show wrap (0 + (2 ^ K - 1)) = 2 ^ K - 1 by
    unfold wrap U64
    have : (2 : Nat) ^ K ≤ 2 ^ 63 := Nat.pow_le_pow_right (by norm_num) hK
    rw [Nat.zero_add, Nat.mod_eq_of_lt (by omega)]] at h
  obtain ⟨h1, h2, h3⟩ := h
  rw [Nat.zero_add] at h2
  rw [Nat.mod_eq_of_lt h2] at h3
  exact h3

/-- Success of `byteSize` bounds every per-field product. -/
theorem byteSizeAux_bounds {mask capacity : Nat} :
    ∀ (l : Schema) (sum total : Nat), byteSizeAux mask capacity sum l = some total →
      ∀ f ∈ l, capacity * f.1 + mask < U64
  | [], _, _, _, f, hf => by cases hf
  | g :: t, sum, total, h, f, hf => by
    unfold byteSizeAux at h
    cases h1 : checked_mul capacity g.1 with
    | none => rw [h1] at h; cases h
    | some arraySize =>
      rw [h1] at h
      dsimp only at h
      cases h2 : checked_add arraySize mask with
      | none => rw [h2] at h; cases h
      | some padded =>
        rw [h2] at h
        dsimp only at h
        cases h3 : checked_add sum (padded &&& usizeNot mask) with
        | none => rw [h3] at h; cases h
        | some sum' =>
          rw [h3] at h
          dsimp only at h
          rcases List.mem_cons.1 hf with hfg | hft
          · subst hfg
            obtain ⟨he, _⟩ := checked_mul_some h1
            obtain ⟨_, hlt⟩ := checked_add_some h2
            omega
          · exact byteSizeAux_bounds t sum' total h f hft

/-- For capacity 0 the byte-size fold always succeeds with total 0. -/
theorem byteSizeAux_zero_cap {mask : Nat} (hm : mask < U64)
    (hz : mask &&& usizeNot mask = 0) :
    ∀ (l : Schema) (sum : Nat), sum < U64 → byteSizeAux mask 0 sum l = some sum
  | [], sum, _ => rfl
  | g :: t, sum, hsum => by
    unfold byteSizeAux
    rw [show checked_mul 0 g.1 = some 0 by unfold checked_mul; rw [Nat.zero_mul]; simp [U64_pos]]
    dsimp only
    rw [show checked_add 0 mask = some mask by unfold checked_add; rw [Nat.zero_add, if_pos hm]]
    dsimp only
    rw [hz]
    rw [show checked_add sum 0 = some sum by unfold checked_add; rw [Nat.add_zero, if_pos hsum]]
    exact byteSizeAux_zero_cap hm hz t sum hsum

theorem mkPointers_length : ∀ (l : Schema) (addr capacity mask : Nat),
    (mkPointers l addr capacity mask).length = l.length
  | [], _, _, _ => rfl
  | f :: t, addr, capacity, mask => by
    unfold mkPointers
    rw [List.length_cons, List.length_cons, mkPointers_length]

theorem mkPointers_ge : ∀ (l : Schema) (addr capacity mask : Nat),
    ∀ p ∈ mkPointers l addr capacity mask, addr ≤ p
  | [], _, _, _, p, hp => by cases hp
  | f :: t, addr, capacity, mask, p, hp => by
    unfold mkPointers at hp
    rcases List.mem_cons.1 hp with h | h
    · omega
    · have := mkPointers_ge t _ capacity mask p h
      omega

theorem mkPointers_zero_cap {mask : Nat} (hm : mask < U64)
    (hz : mask &&& usizeNot mask = 0) :
    ∀ (l : Schema) (addr : Nat), mkPointers l addr 0 mask = List.replicate l.length addr
  | [], _ => rfl
  | f :: t, addr => by
    unfold mkPointers
    rw [show wrap (0 * f.1 + mask) = mask by
      unfold wrap; rw [Nat.zero_mul, Nat.zero_add, Nat.mod_eq_of_lt hm]]
    rw [hz, Nat.add_zero, List.length_cons, List.replicate_succ,
      mkPointers_zero_cap hm hz t addr]

theorem getD_mem_of_lt {α : Type} :
    ∀ {l : List α} {i : Nat}, i < l.length → ∀ d, l.getD i d ∈ l
  | [], i, h, _ => absurd h (by simp)
  | a :: t, 0, _, d => by rw [List.getD_cons_zero]; exact List.mem_cons_self _ _
  | a :: t, i + 1, h, d => by
    rw [List.getD_cons_succ]
    exact List.mem_cons_of_mem _ (getD_mem_of_lt (by simpa using h) d)

theorem getD_replicate {α : Type} {a d : α} :
    ∀ {n i : Nat}, i < n → (List.replicate n a).getD i d = a
  | n + 1, 0, _ => by rw [List.replicate_succ, List.getD_cons_zero]
  | n + 1, i + 1, h => by
    rw [List.replicate_succ, List.getD_cons_succ]
    exact getD_replicate (by omega)

theorem copyN_inside {msrc mdst : Nat → Option Nat} {src dst n x : Nat}
    (h1 : dst ≤ x) (h2 : x < dst + n) :
    copyN msrc src dst n mdst x = msrc (src + (x - dst)) := by
  unfold copyN
  rw [if_pos ⟨h1, h2⟩]

theorem copyN_outside {msrc mdst : Nat → Option Nat} {src dst n x : Nat}
    (h : x < dst ∨ dst + n ≤ x) :
    copyN msrc src dst n mdst x = mdst x := by
  unfold copyN
  rw [if_neg (by omega)]

theorem copyFields_untouched {msrc : Nat → Option Nat} {count : Nat} :
    ∀ (fs : Schema) (sps dps : List Nat) (m : Nat → Option Nat) (x : Nat),
      (∀ dp ∈ dps, x < dp) →
      copyFields msrc count sps dps fs m x = m x
  | [], sps, dps, m, x, h => by cases sps <;> cases dps <;> rfl
  | f :: ft, [], dps, m, x, h => by cases dps <;> rfl
  | f :: ft, sp :: spt, [], m, x, h => rfl
  | f :: ft, sp :: spt, dp :: dpt, m, x, h => by
    show copyFields msrc count spt dpt ft (copyN msrc sp dp (count * f.1) m) x = m x
    rw [copyFields_untouched ft spt dpt _ x fun q hq => h q (List.mem_cons_of_mem _ hq)]
    exact copyN_outside (Or.inl (h dp (List.mem_cons_self _ _)))

/-- Reading a copied byte: at offset `o < count * size_i` into field `i`'s
new array, the copy loop yields the byte at the same offset into field
`i`'s old array. -/
theorem copyFields_copies {msrc : Nat → Option Nat} {count : Nat} :
    ∀ (fs : Schema) (sps : List Nat) (addr capacity mask : Nat) (m : Nat → Option Nat)
      (i o : Nat),
      i < fs.length → fs.length ≤ sps.length →
      (∀ f ∈ fs, count * f.1 ≤ (wrap (capacity * f.1 + mask) &&& usizeNot mask)) →
      o < count * (fs.getD i (0, 0)).1 →
      copyFields msrc count sps (mkPointers fs addr capacity mask) fs m
          ((mkPointers fs addr capacity mask).getD i 0 + o) =
        msrc (sps.getD i 0 + o)
  | [], _, _, _, _, _, i, o, hi, _, _, _ => absurd hi (by simp)
  | f :: ft, sps, addr, capacity, mask, m, i, o, hi, hlen, hspan, ho => by
    cases sps with
    | nil => simp at hlen
    | cons sp spt =>
      rw [show mkPointers (f :: ft) addr capacity mask =
        addr :: mkPointers ft (addr + (wrap (capacity * f.1 + mask) &&& usizeNot mask))
          capacity mask from rfl]
      cases i with
      | zero =>
        rw [List.getD_cons_zero, List.getD_cons_zero]
        rw [List.getD_cons_zero] at ho
        show copyFields msrc count spt
            (mkPointers ft (addr + (wrap (capacity * f.1 + mask) &&& usizeNot mask))
              capacity mask) ft
            (copyN msrc sp addr (count * f.1) m) (addr + o) = msrc (sp + o)
        rw [copyFields_untouched ft spt _ _ (addr + o) ?later]
        case later =>
          intro dp hdp
          have h1 := mkPointers_ge ft _ capacity mask dp hdp
          have h2 := hspan f (List.mem_cons_self _ _)
          omega
        rw [copyN_inside (Nat.le_add_right _ _) (by omega)]
        rw [Nat.add_sub_cancel_left]
      | succ j =>
        rw [List.getD_cons_succ, List.getD_cons_succ]
        rw [List.getD_cons_succ] at ho
        show copyFields msrc count spt
            (mkPointers ft (addr + (wrap (capacity * f.1 + mask) &&& usizeNot mask))
              capacity mask) ft
            (copyN msrc sp addr (count * f.1) m) _ = _
        exact copyFields_copies ft spt _ capacity mask _ j o (by simpa using hi)
          (by simpa using hlen)
          (fun g hg => hspan g (List.mem_cons_of_mem _ hg)) ho

/-- Reading past the copied prefix: at offset `o` with
`count * size_i ≤ o < span_i`, the copy loop leaves the destination
byte unchanged. -/
theorem copyFields_beyond {msrc : Nat → Option Nat} {count : Nat} :
    ∀ (fs : Schema) (sps : List Nat) (addr capacity mask : Nat) (m : Nat → Option Nat)
      (i o : Nat),
      i < fs.length →
      (∀ f ∈ fs, count * f.1 ≤ (wrap (capacity * f.1 + mask) &&& usizeNot mask)) →
      count * (fs.getD i (0, 0)).1 ≤ o →
      o < (wrap (capacity * (fs.getD i (0, 0)).1 + mask) &&& usizeNot mask) →
      copyFields msrc count sps (mkPointers fs addr capacity mask) fs m
          ((mkPointers fs addr capacity mask).getD i 0 + o) =
        m ((mkPointers fs addr capacity mask).getD i 0 + o)
  | [], _, _, _, _, _, i, o, hi, _, _, _ => absurd hi (by simp)
  | f :: ft, sps, addr, capacity, mask, m, i, o, hi, hspan, ho1, ho2 => by
    cases sps with
    | nil =>
      cases mkPointers (f :: ft) addr capacity mask <;> rfl
    | cons sp spt =>
      rw [show mkPointers (f :: ft) addr capacity mask =
        addr :: mkPointers ft (addr + (wrap (capacity * f.1 + mask) &&& usizeNot mask))
          capacity mask from rfl]
      cases i with
      | zero =>
        rw [List.getD_cons_zero]
        rw [List.getD_cons_zero] at ho1 ho2
        show copyFields msrc count spt
            (mkPointers ft (addr + (wrap (capacity * f.1 + mask) &&& usizeNot mask))
              capacity mask) ft
            (copyN msrc sp addr (count * f.1) m) (addr + o) = m (addr + o)
        rw [copyFields_untouched ft spt _ _ (addr + o) ?later0]
        case later0 =>
          intro dp hdp
          have h1 := mkPointers_ge ft _ capacity mask dp hdp
          omega
        exact copyN_outside (Or.inr (by omega))
      | succ j =>
        rw [List.getD_cons_succ]
        rw [List.getD_cons_succ] at ho1 ho2
        show copyFields msrc count spt
            (mkPointers ft (addr + (wrap (capacity * f.1 + mask) &&& usizeNot mask))
              capacity mask) ft
            (copyN msrc sp addr (count * f.1) m) _ = _
        rw [copyFields_beyond ft spt _ capacity mask _ j o (by simpa using hi)
          (fun g hg => hspan g (List.mem_cons_of_mem _ hg)) ho1 ho2]
        apply copyN_outside
        right
        have hj : j < ft.length := by simpa using hi
        have hmem : (mkPointers ft
            (addr + (wrap (capacity * f.1 + mask) &&& usizeNot mask)) capacity mask).getD j 0 ∈
            mkPointers ft (addr + (wrap (capacity * f.1 + mask) &&& usizeNot mask))
              capacity mask := by
          apply getD_mem_of_lt
          rw [mkPointers_length]
          exact hj
        have h1 := mkPointers_ge ft _ capacity mask _ hmem
        have h2 := hspan f (List.mem_cons_self _ _)
        omega

/-! ### Branch equations and inversions for the table operations -/

theorem with_capacity_eq_ok {s : Schema} {cap base size : Nat}
    (hb : byteSize s cap = some size)
    (hd : (if size = 0 then maxAlign s else base) ≠ 0) :
    RawTable.with_capacity s cap base = .ok
      { pointers := mkPointers s (if size = 0 then maxAlign s else base) cap (maxAlign s - 1)
        capacity := if isZST s then usizeMAX else cap
        mem := fun _ => none } := by
  unfold RawTable.with_capacity
  rw [hb]
  dsimp only
  rw [if_neg hd]

theorem with_capacity_overflow {s : Schema} {cap base : Nat} (h : byteSize s cap = none) :
    RawTable.with_capacity s cap base = .capacityOverflow := by
  unfold RawTable.with_capacity
  rw [h]

theorem with_capacity_oom {s : Schema} {cap size : Nat}
    (hb : byteSize s cap = some size) (hsz : size ≠ 0) :
    RawTable.with_capacity s cap 0 = .oomAbort := by
  unfold RawTable.with_capacity
  rw [hb]
  dsimp only
  rw [if_neg hsz, if_pos rfl]

theorem with_capacity_ok {s : Schema} {cap base : Nat} {t : RawTable}
    (h : RawTable.with_capacity s cap base = .ok t) :
    ∃ size, byteSize s cap = some size ∧
      (if size = 0 then maxAlign s else base) ≠ 0 ∧
      t = { pointers := mkPointers s (if size = 0 then maxAlign s else base) cap (maxAlign s - 1)
            capacity := if isZST s then usizeMAX else cap
            mem := fun _ => none } := by
  unfold RawTable.with_capacity at h
  cases hb : byteSize s cap with
  | none => rw [hb] at h; cases h
  | some size =>
    rw [hb] at h
    dsimp only at h
    by_cases hd : (if size = 0 then maxAlign s else base) = 0
    · rw [if_pos hd] at h; cases h
    · rw [if_neg hd] at h
      injection h with h2
      exact ⟨size, rfl, hd, h2.symm⟩

theorem reserve_exact_noop {t : RawTable} {s : Schema} {used extra base : Nat}
    (h : extra ≤ usizeSub t.capacity used) :
    t.reserve_exact s used extra base = .ok t := by
  unfold RawTable.reserve_exact
  rw [if_pos h]

theorem reserve_exact_add_overflow {t : RawTable} {s : Schema} {used extra base : Nat}
    (hng : ¬ extra ≤ usizeSub t.capacity used) (h : checked_add used extra = none) :
    t.reserve_exact s used extra base = .capacityOverflow := by
  unfold RawTable.reserve_exact
  rw [if_neg hng, h]

theorem reserve_exact_bytes_overflow {t : RawTable} {s : Schema} {used extra base cap : Nat}
    (hng : ¬ extra ≤ usizeSub t.capacity used) (hc : checked_add used extra = some cap)
    (hb : byteSize s cap = none) :
    t.reserve_exact s used extra base = .capacityOverflow := by
  unfold RawTable.reserve_exact
  rw [if_neg hng, hc]
  dsimp only
  rw [with_capacity_overflow hb]

theorem reserve_exact_oom {t : RawTable} {s : Schema} {used extra cap size : Nat}
    (hng : ¬ extra ≤ usizeSub t.capacity used) (hc : checked_add used extra = some cap)
    (hb : byteSize s cap = some size) (hsz : size ≠ 0) :
    t.reserve_exact s used extra 0 = .oomAbort := by
  unfold RawTable.reserve_exact
  rw [if_neg hng, hc]
  dsimp only
  rw [with_capacity_oom hb hsz]

theorem reserve_exact_ok_grow {t : RawTable} {s : Schema} {used extra base : Nat}
    {t' : RawTable} (hng : ¬ extra ≤ usizeSub t.capacity used)
    (h : t.reserve_exact s used extra base = .ok t') :
    ∃ cap, checked_add used extra = some cap ∧
      ∃ table, RawTable.with_capacity s cap base = .ok table ∧
        t' = { table with
               mem := copyFields t.mem t.capacity t.pointers table.pointers s table.mem } := by
  unfold RawTable.reserve_exact at h
  rw [if_neg hng] at h
  cases hc : checked_add used extra with
  | none => rw [hc] at h; cases h
  | some cap =>
    rw [hc] at h
    dsimp only at h
    cases hw : RawTable.with_capacity s cap base with
    | ok table =>
      rw [hw] at h
      dsimp only at h
      injection h with h2
      exact ⟨cap, rfl, table, hw, h2.symm⟩
    | capacityOverflow => rw [hw] at h; cases h
    | oomAbort => rw [hw] at h; cases h

end Soak

/-! ### Claim theorems -/

open Quickdry Soak

/-- C1: for every sequence of `Arena::alloc(size, align)` calls with valid
power-of-two alignments and a well-behaved system allocator, every call
that returns a non-null address returns one with `address % align = 0`,
and the half-open byte ranges `[address, address + size)` of any two
successful allocations on the same arena are disjoint. -/
theorem c1_arena_alloc_aligned_and_disjoint (tr : List ((Nat × Nat) × Nat))
    (h : GoodTrace Arena.default tr) :
    (∀ r ∈ (runAlloc Arena.default tr).1, r.1 ≠ 0 → r.1 % r.2.2 = 0) ∧
    (runAlloc Arena.default tr).1.Pairwise (fun r1 r2 =>
      r1.1 ≠ 0 → r2.1 ≠ 0 → RangesDisjoint r1.1 r1.2.1 r2.1 r2.2.1) := by
  have h2 := runAlloc_inv tr Arena.default [] ArenaInv.init h
  rw [List.nil_append] at h2
  exact ⟨h2.aligned, h2.pairwise⟩

/-- Witness for C1 at the one-call trace `alloc(8, 1)` served by a system
buffer at address 4096. -/
theorem c1_witness :
    GoodTrace Arena.default [((8, 1), 4096)] ∧
    ((∀ r ∈ (runAlloc Arena.default [((8, 1), 4096)]).1, r.1 ≠ 0 → r.1 % r.2.2 = 0) ∧
      (runAlloc Arena.default [((8, 1), 4096)]).1.Pairwise (fun r1 r2 =>
        r1.1 ≠ 0 → r2.1 ≠ 0 → RangesDisjoint r1.1 r1.2.1 r2.1 r2.2.1)) :=
  have hg : GoodTrace Arena.default [((8, 1), 4096)] :=
    ⟨⟨⟨0, by norm_num, by norm_num⟩, by norm_num⟩,
      Or.inr ⟨by norm_num, by decide, by simp [Arena.default]⟩, trivial⟩
  ⟨hg, c1_arena_alloc_aligned_and_disjoint [((8, 1), 4096)] hg⟩

/-- C7: a standard (non-oversized) new-slab allocation with `k` slabs
already owned requests a slab of `SLAB_SIZE * 2 ^ (k / 128)` bytes with
the exponent capped at 30, so the multiplier never exceeds `2 ^ 30`. -/
theorem c7_standard_slab_size {st : Arena} {size align sys : Nat}
    (hslow : ¬ align_offset st.next align + size ≤ usizeSub st.end_ st.next)
    (hstd : ¬ SLAB_SIZE < size + align - 1) (hsys : sys ≠ 0) :
    (st.alloc size align sys).2.slabs =
      st.slabs ++ [(sys, SLAB_SIZE * 2 ^ min 30 (st.slabs.length / 128))] ∧
    2 ^ min 30 (st.slabs.length / 128) ≤ 2 ^ 30 := by
  rw [alloc_slow hslow, alloc_new_slab_std hstd hsys]
  constructor
  · dsimp only
    rw [Nat.shiftLeft_eq, Nat.one_mul]
  · exact Nat.pow_le_pow_right (by norm_num) (Nat.min_le_left _ _)

/-- Witness for C7: a fresh arena taking the standard new-slab path for
`alloc(8, 1)` pushes a slab of `SLAB_SIZE * 2 ^ 0` bytes. -/
theorem c7_witness :
    (Arena.default.alloc 8 1 4096).2.slabs =
      Arena.default.slabs ++
        [(4096, SLAB_SIZE * 2 ^ min 30 (Arena.default.slabs.length / 128))] ∧
    2 ^ min 30 (Arena.default.slabs.length / 128) ≤ 2 ^ 30 :=
  c7_standard_slab_size (by decide) (by decide) (by decide)

set_option maxRecDepth 100000 in
/-- C8 counterexample: an allocation whose padded size exceeds the
standard slab size can still be served from the bump region of a larger
(doubled) slab, changing `next` — reached by a real trace: 128 oversized
one-off allocations (so 128 slabs are owned), one small allocation that
opens a doubled 8192-byte slab, then `alloc(5000, 1)` with
`5000 + 1 - 1 > SLAB_SIZE` is bump-served and advances the cursor. -/
theorem c8_counterexample :
    c8State.next = 1000001 ∧ c8State.end_ = 1008192 ∧
    SLAB_SIZE < 5000 + 1 - 1 ∧
    (c8State.alloc 5000 1 0).1 = 1000001 ∧
    (c8State.alloc 5000 1 0).2.next = 1005001 ∧
    ¬ (c8State.alloc 5000 1 0).2.next = c8State.next := by decide

/-- C8 (amended): for every allocation whose padded size
`size + align - 1` exceeds the standard slab size **and that does not fit
the current bump region**, `next` and `end` are unchanged, a dedicated
one-off slab of exactly `size + align - 1` bytes is pushed, and the
returned address is aligned and lies with its full `size` bytes inside
that buffer. -/
theorem c8_oversized_one_off {st : Arena} {size align sys : Nat}
    (hl : ValidLayout size align)
    (hslow : ¬ align_offset st.next align + size ≤ usizeSub st.end_ st.next)
    (hbig : SLAB_SIZE < size + align - 1)
    (hsys : 1 ≤ sys) (hhi : sys + (size + align - 1) ≤ 2 ^ 63) :
    (st.alloc size align sys).2.next = st.next ∧
    (st.alloc size align sys).2.end_ = st.end_ ∧
    (st.alloc size align sys).2.slabs = st.slabs ++ [(sys, size + align - 1)] ∧
    sys ≤ (st.alloc size align sys).1 ∧
    (st.alloc size align sys).1 + size ≤ sys + (size + align - 1) ∧
    (st.alloc size align sys).1 % align = 0 := by
  obtain ⟨⟨k, hk, rfl⟩, hsz⟩ := hl
  rw [alloc_slow hslow, alloc_new_slab_big hbig (by omega)]
  have hU : U64 = 2 ^ 63 + 2 ^ 63 := by norm_num [U64]
  have hkpos : 0 < (2 : Nat) ^ k := Nat.pos_pow_of_pos _ (by norm_num)
  have hsysU : sys + 2 ^ k ≤ U64 := by omega
  obtain ⟨hAeq, hofs⟩ := align_offset_spec sys k hk hsysU
  obtain ⟨hA1, hA2, hA3⟩ := align_to_bounds sys k hk hsysU
  refine ⟨rfl, rfl, rfl, by omega, by omega, ?_⟩
  show (sys + align_offset sys (2 ^ k)) % 2 ^ k = 0
  rw [hAeq]
  exact hA3

/-- Witness for C8 (amended) at a fresh arena, `alloc(5000, 1)` with a
one-off buffer at 10000. -/
theorem c8_witness :
    (Arena.default.alloc 5000 1 10000).2.next = Arena.default.next ∧
    (Arena.default.alloc 5000 1 10000).2.end_ = Arena.default.end_ ∧
    (Arena.default.alloc 5000 1 10000).2.slabs =
      Arena.default.slabs ++ [(10000, 5000 + 1 - 1)] ∧
    10000 ≤ (Arena.default.alloc 5000 1 10000).1 ∧
    (Arena.default.alloc 5000 1 10000).1 + 5000 ≤ 10000 + (5000 + 1 - 1) ∧
    (Arena.default.alloc 5000 1 10000).1 % 1 = 0 :=
  c8_oversized_one_off ⟨⟨0, by norm_num, by norm_num⟩, by norm_num⟩
    (by decide) (by decide) (by decide) (by decide)

/-- C4 (amended): when the system allocator fails, the table's
`with_capacity` and a reallocating `reserve_exact` abort fatally
(`handle_alloc_error`), while the arena's `alloc` returns the null
address `0` to the caller, leaving the arena unchanged. -/
theorem c4_oom_behavior :
    (∀ (s : Schema) (cap size : Nat), byteSize s cap = some size → size ≠ 0 →
      RawTable.with_capacity s cap 0 = .oomAbort) ∧
    (∀ (t : RawTable) (s : Schema) (used extra cap size : Nat),
      ¬ extra ≤ usizeSub t.capacity used → checked_add used extra = some cap →
      byteSize s cap = some size → size ≠ 0 →
      t.reserve_exact s used extra 0 = .oomAbort) ∧
    (∀ (st : Arena) (size align : Nat),
      ¬ align_offset st.next align + size ≤ usizeSub st.end_ st.next →
      st.alloc size align 0 = (0, st)) := by
  refine ⟨fun s cap size hb hsz => with_capacity_oom hb hsz,
    fun t s used extra cap size hng hc hb hsz => reserve_exact_oom hng hc hb hsz,
    fun st size align hslow => ?_⟩
  rw [alloc_slow hslow]
  exact alloc_new_slab_fail

/-- Witness for C4 (amended): a failing allocator makes `with_capacity`
abort, and makes the arena return null. -/
theorem c4_witness :
    RawTable.with_capacity [(2, 1)] 1 0 = .oomAbort ∧
    Arena.default.alloc 8 1 0 = (0, Arena.default) :=
  ⟨c4_oom_behavior.1 [(2, 1)] 1 2 (by decide) (by decide),
    c4_oom_behavior.2.2 Arena.default 8 1 (by decide)⟩

/-- C4 counterexample: the claim says neither primitive returns a failure
value to the caller on out-of-memory, but the arena's `alloc` returns the
null address `0` when the system allocator fails for the new-slab
request. -/
theorem c4_counterexample :
    (Arena.default.alloc 8 1 0).1 = 0 := by decide

/-- C5: on a table with `used ≤ capacity`, `reserve_exact(used, extra)`
is the identity when `capacity - used ≥ extra` (no reallocation, pointers
and capacity unchanged); otherwise any successful call yields a capacity
of at least `used + extra` and strictly greater than the old one. -/
theorem c5_reserve_exact_noop_or_grow (s : Schema) (t : RawTable)
    (used extra base : Nat) (hcap : t.capacity < U64) (hused : used ≤ t.capacity) :
    (extra ≤ t.capacity - used → t.reserve_exact s used extra base = .ok t) ∧
    (t.capacity - used < extra →
      ∀ t', t.reserve_exact s used extra base = .ok t' →
        used + extra ≤ t'.capacity ∧ t.capacity < t'.capacity) := by
  have hsub : usizeSub t.capacity used = t.capacity - used := usizeSub_of_le hused hcap
  constructor
  · intro h
    exact reserve_exact_noop (by rw [hsub]; exact h)
  · intro hlt t' hok
    have hng : ¬ extra ≤ usizeSub t.capacity used := by rw [hsub]; omega
    obtain ⟨cap, hc, table, hw, ht'⟩ := reserve_exact_ok_grow hng hok
    obtain ⟨hce, hlt2⟩ := checked_add_some hc
    obtain ⟨size, hb, hd, htable⟩ := with_capacity_ok hw
    subst ht'
    subst htable
    dsimp only
    by_cases hz : isZST s
    · rw [if_pos hz]
      unfold usizeMAX
      omega
    · rw [if_neg hz]
      omega

/-- Witness for C5 (no-op branch) at a one-field table of capacity 2. -/
theorem c5_witness :
    RawTable.reserve_exact ⟨[4096], 2, fun _ => none⟩ [(1, 1)] 1 1 0 =
      .ok ⟨[4096], 2, fun _ => none⟩ :=
  (c5_reserve_exact_noop_or_grow [(1, 1)] ⟨[4096], 2, fun _ => none⟩ 1 1 0
    (by decide) (by decide)).1 (by decide)

/-- C6: a capacity whose byte-size computation overflows makes
`with_capacity` fail with the capacity-overflow panic, and a
`reserve_exact` whose element-count or byte-size computation overflows
fails the same way, leaving the caller's table (pointers and capacity)
unchanged. -/
theorem c6_capacity_overflow (s : Schema) (t : RawTable)
    (capacity used extra base : Nat) :
    (byteSize s capacity = none →
      RawTable.with_capacity s capacity base = .capacityOverflow) ∧
    (¬ extra ≤ usizeSub t.capacity used →
      (checked_add used extra = none ∨
        (∃ cap, checked_add used extra = some cap ∧ byteSize s cap = none)) →
      t.reserve_exact s used extra base = .capacityOverflow ∧
      t.afterReserve s used extra base = t) := by
  refine ⟨fun hb => with_capacity_overflow hb, fun hng hover => ?_⟩
  have heq : t.reserve_exact s used extra base = .capacityOverflow := by
    rcases hover with h | ⟨cap, hc, hb⟩
    · exact reserve_exact_add_overflow hng h
    · exact reserve_exact_bytes_overflow hng hc hb
  refine ⟨heq, ?_⟩
  unfold RawTable.afterReserve
  rw [heq]

/-- Witness for C6: a two-byte field with capacity `usize::MAX` overflows
`with_capacity`, and `reserve_exact(1, usize::MAX)` on a capacity-2 table
overflows the element count and leaves the table unchanged. -/
theorem c6_witness :
    RawTable.with_capacity [(2, 1)] (U64 - 1) 4096 = .capacityOverflow ∧
    (RawTable.reserve_exact ⟨[4096], 2, fun _ => none⟩ [(2, 1)] 1 (U64 - 1) 0 =
        .capacityOverflow ∧
      RawTable.afterReserve ⟨[4096], 2, fun _ => none⟩ [(2, 1)] 1 (U64 - 1) 0 =
        ⟨[4096], 2, fun _ => none⟩) :=
  ⟨(c6_capacity_overflow [(2, 1)] ⟨[4096], 2, fun _ => none⟩ (U64 - 1) 1 (U64 - 1) 4096).1
      (by decide),
    (c6_capacity_overflow [(2, 1)] ⟨[4096], 2, fun _ => none⟩ (U64 - 1) 1 (U64 - 1) 0).2
      (by decide) (Or.inl (by decide))⟩

/-- C10: `reserve_exact` implicitly assumes `used ≤ capacity` — under it
the headroom subtraction cannot underflow; violating it on a fresh empty
non-zero-sized table (`used = 1`, `extra = 1`) wraps the subtraction
around, so the call returns without growing and leaves
`capacity < used + extra`. -/
theorem c10_reserve_exact_underflow (c used : Nat) (hc : c < U64) (hused : used ≤ c) :
    usizeSub c used = c - used ∧
    usizeSub (RawTable.default [(1, 1)]).capacity 1 = U64 - 1 ∧
    (RawTable.default [(1, 1)]).reserve_exact [(1, 1)] 1 1 0 =
      .ok (RawTable.default [(1, 1)]) ∧
    (RawTable.default [(1, 1)]).capacity < 1 + 1 :=
  ⟨usizeSub_of_le hused hc, by decide, reserve_exact_noop (by decide), by decide⟩

/-- C2 counterexample: with one u8 field, old capacity 2 and `used = 1`,
`reserve_exact(1, 2)` copies `capacity = 2` elements — so the byte at
index 1, beyond the `used` prefix, is copied into the new buffer (it
equals the old byte `7`) instead of remaining uninitialized (`none`) as
the claim's "exactly the first `used` elements" requires. -/
theorem c2_counterexample :
    (c2Old.afterReserve [(1, 1)] 1 2 8192).ptr 0 = 8192 ∧
    (c2Old.afterReserve [(1, 1)] 1 2 8192).capacity = 3 ∧
    (c2Old.afterReserve [(1, 1)] 1 2 8192).mem (8192 + 1) = some 7 ∧
    ¬ (c2Old.afterReserve [(1, 1)] 1 2 8192).mem (8192 + 1) = none := by
  decide

/-- C2 (amended): a reallocating `reserve_exact(used, extra)` copies, for
each field in schema order at matching per-field offsets, exactly the
first `capacity` (the old capacity) elements — not the first `used` —
from the old buffer; new-buffer bytes of a field's array beyond that
prefix are uninitialized. -/
theorem c2_reserve_exact_copies (s : Schema) (t : RawTable) (used extra base : Nat)
    (t' : RawTable) (hva : ValidSchema s) (hlen : s.length ≤ t.pointers.length)
    (hcap : t.capacity < U64) (hused : used ≤ t.capacity)
    (hgrow : t.capacity - used < extra)
    (hok : t.reserve_exact s used extra base = .ok t') :
    ∀ i, i < s.length →
      (∀ o, o < t.capacity * (s.getD i (0, 0)).1 →
        t'.mem (t'.ptr i + o) = t.mem (t.ptr i + o)) ∧
      (∀ o, t.capacity * (s.getD i (0, 0)).1 ≤ o →
        o < (used + extra) * (s.getD i (0, 0)).1 →
        t'.mem (t'.ptr i + o) = none) := by
  have hng : ¬ extra ≤ usizeSub t.capacity used := by
    rw [usizeSub_of_le hused hcap]; omega
  obtain ⟨cap, hc, table, hw, ht'⟩ := reserve_exact_ok_grow hng hok
  obtain ⟨hce, hlt⟩ := checked_add_some hc
  subst hce
  obtain ⟨size, hb, hd, htable⟩ := with_capacity_ok hw
  subst ht'
  subst htable
  obtain ⟨K, hK, hmax⟩ := maxAlign_pow hva
  have hb' : byteSizeAux (maxAlign s - 1) (used + extra) 0 s = some size := hb
  have hcaple : t.capacity ≤ used + extra := by omega
  have hspan : ∀ f ∈ s, t.capacity * f.1 ≤
      (wrap ((used + extra) * f.1 + (maxAlign s - 1)) &&& usizeNot (maxAlign s - 1)) := by
    intro f hf
    have h1 : (used + extra) * f.1 + (maxAlign s - 1) < U64 :=
      byteSizeAux_bounds s 0 size hb' f hf
    have h2 : t.capacity * f.1 ≤ (used + extra) * f.1 := Nat.mul_le_mul_right _ hcaple
    rw [hmax] at h1 ⊢
    have hsb := span_bounds ((used + extra) * f.1) K hK (by unfold U64 at *; omega)
    omega
  intro i hi
  have hfi : s.getD i (0, 0) ∈ s := getD_mem_of_lt hi _
  constructor
  · intro o ho
    exact copyFields_copies s t.pointers _ (used + extra) (maxAlign s - 1) _ i o hi
      hlen hspan ho
  · intro o ho1 ho2
    have h1 : (used + extra) * (s.getD i (0, 0)).1 + (maxAlign s - 1) < U64 :=
      byteSizeAux_bounds s 0 size hb' _ hfi
    have ho2' : o < (wrap ((used + extra) * (s.getD i (0, 0)).1 + (maxAlign s - 1)) &&&
        usizeNot (maxAlign s - 1)) := by
      rw [hmax] at h1 ⊢
      have hsb := span_bounds ((used + extra) * (s.getD i (0, 0)).1) K hK
        (by unfold U64 at *; omega)
      omega
    exact copyFields_beyond s t.pointers _ (used + extra) (maxAlign s - 1) _ i o hi
      hspan ho1 ho2'

/-- Witness for C2 (amended) on the concrete scenario of the
counterexample: the byte of element 1 is copied, while the byte of the new
element 2 is uninitialized. -/
theorem c2_witness :
    c2New.mem (c2New.ptr 0 + 1) = c2Old.mem (c2Old.ptr 0 + 1) ∧
    c2New.mem (c2New.ptr 0 + 2) = none :=
  have hva : ValidSchema [(1, 1)] := by
    intro f hf
    rw [List.mem_singleton] at hf
    exact ⟨0, by norm_num, by rw [hf]; decide⟩
  have hok : c2Old.reserve_exact [(1, 1)] 1 2 8192 = .ok c2New := rfl
  have h := c2_reserve_exact_copies [(1, 1)] c2Old 1 2 8192 c2New hva (by decide)
    (by decide) (by decide) (by decide) hok 0 (by decide)
  ⟨h.1 1 (by decide), h.2 2 (by decide) (by decide)⟩

/-- C3 counterexample: for the two-field schema `{(1,1),(4,4)}`,
`with_capacity(0)` succeeds but both field pointers equal `4` (the maximal
alignment) — they are not pairwise distinct as the claim requires. -/
theorem c3_counterexample :
    (RawTable.with_capacity [(1, 1), (4, 4)] 0 99).isOk = true ∧
    (resultTable (RawTable.with_capacity [(1, 1), (4, 4)] 0 99)).ptr 0 =
      (resultTable (RawTable.with_capacity [(1, 1), (4, 4)] 0 99)).ptr 1 ∧
    (resultTable (RawTable.with_capacity [(1, 1), (4, 4)] 0 99)).ptr 0 = 4 := by
  decide

/-- C3 (amended): `with_capacity(0)` succeeds and every field pointer
equals the maximal field alignment — so each is aligned to its field's
alignment, but the pointers all coincide instead of being pairwise
distinct. -/
theorem c3_with_capacity_zero (s : Schema) (base : Nat) (hva : ValidSchema s) :
    (RawTable.with_capacity s 0 base).isOk = true ∧
    ∀ i, i < s.length →
      (resultTable (RawTable.with_capacity s 0 base)).ptr i = maxAlign s ∧
      (resultTable (RawTable.with_capacity s 0 base)).ptr i % (s.getD i (0, 0)).2 = 0 := by
  obtain ⟨K, hK, hmax⟩ := maxAlign_pow hva
  have hz : (maxAlign s - 1) &&& usizeNot (maxAlign s - 1) = 0 := by
    rw [hmax]; exact mask_and_usizeNot K hK
  have hm : maxAlign s - 1 < U64 := by
    rw [hmax]
    have : (2 : Nat) ^ K ≤ 2 ^ 63 := Nat.pow_le_pow_right (by norm_num) hK
    unfold U64; omega
  have hb : byteSize s 0 = some 0 := byteSizeAux_zero_cap hm hz s 0 (by decide)
  have hpos := maxAlign_pos hva
  have hd : (if (0 : Nat) = 0 then maxAlign s else base) ≠ 0 := by
    rw [if_pos rfl]; omega
  have hwc := with_capacity_eq_ok hb hd
  rw [if_pos rfl] at hwc
  rw [hwc]
  refine ⟨rfl, fun i hi => ?_⟩
  show (mkPointers s (maxAlign s) 0 (maxAlign s - 1)).getD i 0 = maxAlign s ∧
    (mkPointers s (maxAlign s) 0 (maxAlign s - 1)).getD i 0 % (s.getD i (0, 0)).2 = 0
  rw [mkPointers_zero_cap hm hz, getD_replicate hi]
  refine ⟨rfl, ?_⟩
  have hfmem : s.getD i (0, 0) ∈ s := getD_mem_of_lt hi _
  obtain ⟨j, hj, hfa⟩ := hva _ hfmem
  rw [hfa, hmax]
  have hle : (2 : Nat) ^ j ≤ 2 ^ K := by
    rw [← hfa, ← hmax]; exact le_maxAlign hfmem
  have hjK : j ≤ K := (Nat.pow_le_pow_iff_right (by norm_num)).1 hle
  exact Nat.mod_eq_zero_of_dvd (pow_dvd_pow 2 hjK)

/-- Witness for C3 (amended) at the schema `{(1,1),(4,4)}`: index 1's
pointer equals `maxAlign = 4` and is 4-aligned. -/
theorem c3_witness :
    (RawTable.with_capacity [(1, 1), (4, 4)] 0 7).isOk = true ∧
    (resultTable (RawTable.with_capacity [(1, 1), (4, 4)] 0 7)).ptr 1 =
      maxAlign [(1, 1), (4, 4)] ∧
    (resultTable (RawTable.with_capacity [(1, 1), (4, 4)] 0 7)).ptr 1 %
      ([((1 : Nat), (1 : Nat)), (4, 4)].getD 1 (0, 0)).2 = 0 :=
  have hva : ValidSchema [(1, 1), (4, 4)] := by
    intro f hf
    rcases List.mem_cons.1 hf with h | h
    · exact ⟨0, by norm_num, by rw [h]; decide⟩
    · rw [List.mem_singleton] at h
      exact ⟨2, by norm_num, by rw [h]; decide⟩
  have h := c3_with_capacity_zero [(1, 1), (4, 4)] 7 hva
  ⟨h.1, (h.2 1 (by decide)).1, (h.2 1 (by decide)).2⟩

/-- C9: for the schema with sizes `{1,4,8}` and alignments `{1,4,8}`,
`with_capacity(64)` yields the three field pointers
`base, base + 64, base + 320`, aligned to 1, 4 and 8 respectively; and for
every memory contents `g` written into the 64 elements of each field's
array, reading the same indices back after `reserve_exact(64, 64)`
reproduces the written bytes (round-trip under growth). -/
theorem c9_layout_roundtrip (base base2 : Nat) (g : Nat → Option Nat)
    (hb8 : base % 8 = 0) (hb0 : base ≠ 0) (hb2 : base2 ≠ 0) :
    RawTable.with_capacity s9 64 base =
      .ok { pointers := [base, base + 64, base + 320], capacity := 64
            mem := fun _ => none } ∧
    (base % 1 = 0 ∧ (base + 64) % 4 = 0 ∧ (base + 320) % 8 = 0) ∧
    (RawTable.mk [base, base + 64, base + 320] 64 g).reserve_exact s9 64 64 base2 =
      .ok { pointers := [base2, base2 + 128, base2 + 640], capacity := 128
            mem := copyFields g 64 [base, base + 64, base + 320]
              [base2, base2 + 128, base2 + 640] s9 fun _ => none } ∧
    (∀ o, o < 64 * 1 →
      copyFields g 64 [base, base + 64, base + 320]
          [base2, base2 + 128, base2 + 640] s9 (fun _ => none) (base2 + o) =
        g (base + o)) ∧
    (∀ o, o < 64 * 4 →
      copyFields g 64 [base, base + 64, base + 320]
          [base2, base2 + 128, base2 + 640] s9 (fun _ => none) (base2 + 128 + o) =
        g (base + 64 + o)) ∧
    (∀ o, o < 64 * 8 →
      copyFields g 64 [base, base + 64, base + 320]
          [base2, base2 + 128, base2 + 640] s9 (fun _ => none) (base2 + 640 + o) =
        g (base + 320 + o)) := by
  have hmk1 : mkPointers s9 base 64 7 = [base, base + 64, base + 320] := by
    simp only [s9, mkPointers]
    rw [show (wrap (64 * 1 + 7) &&& usizeNot 7) = 64 from by decide,
      show (wrap (64 * 4 + 7) &&& usizeNot 7) = 256 from by decide]
  have hmk2 : mkPointers s9 base2 128 7 = [base2, base2 + 128, base2 + 640] := by
    simp only [s9, mkPointers]
    rw [show (wrap (128 * 1 + 7) &&& usizeNot 7) = 128 from by decide,
      show (wrap (128 * 4 + 7) &&& usizeNot 7) = 512 from by decide]
  have h1 : RawTable.with_capacity s9 64 base =
      .ok { pointers := [base, base + 64, base + 320], capacity := 64
            mem := fun _ => none } := by
    rw [with_capacity_eq_ok (show byteSize s9 64 = some 832 from by decide)
      (by rw [if_neg (by decide : ¬ (832 = 0))]; exact hb0)]
    rw [if_neg (by decide : ¬ (832 = 0))]
    rw [show maxAlign s9 = 8 from by decide]
    norm_num
    rw [hmk1, show isZST s9 = false from by decide]
    norm_num
  have h2 : RawTable.with_capacity s9 128 base2 =
      .ok { pointers := [base2, base2 + 128, base2 + 640], capacity := 128
            mem := fun _ => none } := by
    rw [with_capacity_eq_ok (show byteSize s9 128 = some 1664 from by decide)
      (by rw [if_neg (by decide : ¬ (1664 = 0))]; exact hb2)]
    rw [if_neg (by decide : ¬ (1664 = 0))]
    rw [show maxAlign s9 = 8 from by decide]
    norm_num
    rw [hmk2, show isZST s9 = false from by decide]
    norm_num
  have h3 : (RawTable.mk [base, base + 64, base + 320] 64 g).reserve_exact s9 64 64 base2 =
      .ok { pointers := [base2, base2 + 128, base2 + 640], capacity := 128
            mem := copyFields g 64 [base, base + 64, base + 320]
              [base2, base2 + 128, base2 + 640] s9 fun _ => none } := by
    unfold RawTable.reserve_exact
    dsimp only
    rw [if_neg (by decide : ¬ ((64 : Nat) ≤ usizeSub 64 64))]
    rw [show checked_add (64 : Nat) 64 = some 128 from by decide]
    dsimp only
    rw [h2]
  refine ⟨h1, ⟨by omega, by omega, by omega⟩, h3, ?_, ?_, ?_⟩
  · intro o ho
    show copyN g (base + 320) (base2 + 640) (64 * 8)
        (copyN g (base + 64) (base2 + 128) (64 * 4)
          (copyN g base base2 (64 * 1) fun _ => none)) (base2 + o) = g (base + o)
    rw [copyN_outside (Or.inl (by omega)), copyN_outside (Or.inl (by omega)),
      copyN_inside (by omega) (by omega), show base2 + o - base2 = o from by omega]
  · intro o ho
    show copyN g (base + 320) (base2 + 640) (64 * 8)
        (copyN g (base + 64) (base2 + 128) (64 * 4)
          (copyN g base base2 (64 * 1) fun _ => none)) (base2 + 128 + o) =
      g (base + 64 + o)
    rw [copyN_outside (Or.inl (by omega)),
      copyN_inside (by omega) (by omega),
      show base + 64 + (base2 + 128 + o - (base2 + 128)) = base + 64 + o from by omega]
  · intro o ho
    show copyN g (base + 320) (base2 + 640) (64 * 8)
        (copyN g (base + 64) (base2 + 128) (64 * 4)
          (copyN g base base2 (64 * 1) fun _ => none)) (base2 + 640 + o) =
      g (base + 320 + o)
    rw [copyN_inside (by omega) (by omega),
      show base + 320 + (base2 + 640 + o - (base2 + 640)) = base + 320 + o from by omega]

/-- Witness for C9 at `base = 4096`, `base2 = 8192`, writing the byte
`a % 251` at every address `a`. -/
theorem c9_witness :
    RawTable.with_capacity s9 64 4096 =
      .ok { pointers := [4096, 4096 + 64, 4096 + 320], capacity := 64
            mem := fun _ => none } ∧
    copyFields (fun a => some (a % 251)) 64 [4096, 4096 + 64, 4096 + 320]
        [8192, 8192 + 128, 8192 + 640] s9 (fun _ => none) (8192 + 128 + 5) =
      (fun a => some (a % 251)) (4096 + 64 + 5) :=
  have h := c9_layout_roundtrip 4096 8192 (fun a => some (a % 251))
    (by decide) (by decide) (by decide)
  ⟨h.1, h.2.2.2.2.1 5 (by decide)⟩

/-- Witness for C10 at `capacity = 5`, `used = 3`. -/
theorem c10_witness :
    usizeSub 5 3 = 5 - 3 ∧
    usizeSub (RawTable.default [(1, 1)]).capacity 1 = U64 - 1 ∧
    (RawTable.default [(1, 1)]).reserve_exact [(1, 1)] 1 1 0 =
      .ok (RawTable.default [(1, 1)]) ∧
    (RawTable.default [(1, 1)]).capacity < 1 + 1 :=
  c10_reserve_exact_underflow 5 3 (by decide) (by decide)

end Driveyard